import Mathlib

/-!
Verification of `src/subcmds/git_diff_subcmd.py` (krep plugin `git-diff`).

The development shallowly embeds the module's pure logic:

* Python string primitives used by the code (`str.find`, `str.strip`,
  `str.split`, slicing) are modelled on `List Char` / `String`.
* The external git command surface (`GitProject.rev_parse`, `rev_list`,
  `log` from the `topics` module) is modelled as a record of oracle
  functions returning `(status, text)` pairs, exactly the shape the
  Python code consumes.
* `GitDiffSubcmd.build_pattern`, `_secure_sha` and `generate_report`
  are translated function by function.  Report documents are modelled
  as the structured content the `FormattedFile` calls would receive
  (sections, tables, rows, hyperlinked cells), and the sequence of
  document-level effects (open / section / row / close) is additionally
  recorded as an event trace, so that claims about close order and
  early-failure exit paths can be stated.  A Python exception raised
  after `k` document-level effects corresponds to the length-`k` prefix
  of the trace: effects already performed have happened, the rest have
  not.
-/

namespace GitDiff

/-! ### Python string primitives -/

/-- Python `s.find(c)`: index of the first occurrence of `c`, `-1` if absent. -/
def pyFind (s : String) (c : Char) : Int :=
  match s.data.findIdx? (· = c) with
  | some i => (i : Int)
  | none => -1

/-- Python `s.strip(chars)` for a single-character class given as a predicate:
drop matching characters from both ends. -/
def pyStripP (p : Char → Bool) (s : String) : String :=
  String.mk (((s.data.dropWhile p).reverse.dropWhile p).reverse)

/-- Python `s.strip('"')`. -/
def pyStripQuote (s : String) : String := pyStripP (· = '"') s

/-- Python `s.strip()` (whitespace from both ends). -/
def pyStripWs (s : String) : String := pyStripP Char.isWhitespace s

/-- Helper for Python `s.split(sep)` with a one-character separator. -/
def pySplitAux (sep : Char) : List Char → List Char → List String
  | [], acc => [String.mk acc.reverse]
  | c :: rest, acc =>
    if c = sep then String.mk acc.reverse :: pySplitAux sep rest []
    else pySplitAux sep rest (c :: acc)

/-- Python `s.split(sep)` for a one-character separator (keeps empty pieces;
`"".split(sep) == [""]`). -/
def pySplit (s : String) (sep : Char) : List String := pySplitAux sep s.data []

/-- Python `s.split('\n')` as used on `rev-list` / `log` output. -/
def pySplitLines (s : String) : List String := pySplit s '\n'

/-- Python slice `s[:n]`. -/
def pyTake (s : String) (n : Nat) : String := String.mk (s.data.take n)

/-- Python slice `s[n:]`. -/
def pyDrop (s : String) (n : Nat) : String := String.mk (s.data.drop n)

/-- Truthiness of an optional string option value (`None` and `''` are falsy). -/
def truthyOpt : Option String → Bool
  | none => false
  | some s => !(s == "")

/-! ### The `topics` collaborators -/

/-- The slice of the external `GitProject` class (module `topics`) that
`git_diff_subcmd.py` uses: three git query primitives, each returning a
`(status, output)` pair with status `0` meaning success, plus the `remote`
attribute used for the remote-qualified fallback in `_secure_sha`. -/
structure GitProject where
  rev_parse : String → Nat × String
  rev_list : String → String → Nat × String
  log : String → String → Nat × String
  remote : String

/-- `class RevisionError(KrepError)`: the unknown revision. -/
inductive RevisionError where
  | unknown (refs : String)
deriving DecidableEq, Repr

deriving instance DecidableEq for Except

/-- The external `topics.Pattern` value, observed through the list of
`field:value` tokens it was constructed from (`Pattern()` is `⟨[]⟩`). -/
structure Pattern where
  pats : List String
deriving DecidableEq, Repr

/-- Modelled from the spec: truthiness of a `topics.Pattern` object (the class
itself is not under `src/`).  §6: "Filter files are created only when at least
one pattern token was supplied", and §4.2 requires callers to check pattern
truthiness before producing filtered documents. -/
def patternTruthy (p : Pattern) : Bool := !p.pats.isEmpty

/-- Utility for `patternMatch`: split `tok` at its first `:` into
`(field, value)`; `none` when there is no `:`. -/
def splitFirstColonAux : List Char → List Char → Option (String × String)
  | [], _ => none
  | c :: rest, acc =>
    if c = ':' then some (String.mk acc.reverse, String.mk rest)
    else splitFirstColonAux rest (c :: acc)

def splitFirstColon (s : String) : Option (String × String) :=
  splitFirstColonAux s.data []

/-- `needle` occurs as a contiguous substring of `hay`. -/
def strContainsSub (hay needle : String) : Bool :=
  (List.range (hay.data.length + 1)).any
    (fun i => (hay.data.drop i).take needle.data.length == needle.data)

/-- Modelled from the spec: `topics.Pattern.match(aliases, value)` (the class
is not under `src/`).  §4.2: a record matches if ANY expression matches
(logical OR); each token splits as `field:value`; the `aliases` argument is a
comma-separated list of acceptable field names; an empty Pattern matches every
value unconditionally.  §9 leaves substring-vs-exact open and recommends
substring matching, which is adopted here. -/
def patternMatch (p : Pattern) (aliases : String) (value : String) : Bool :=
  if p.pats.isEmpty then true
  else p.pats.any (fun pat =>
    match splitFirstColon pat with
    | some fv => (pySplit aliases ',').contains fv.1 && strContainsSub value fv.2
    | none => strContainsSub value pat)

/-! ### `GitDiffSubcmd.build_pattern` -/

/-- `GitDiffSubcmd.build_pattern(patterns)`: a raw token whose first `:` sits
at a positive index is kept verbatim (`pat.find(':') > 0`); every other token
is wrapped as `'email:%s' % pat`; without tokens, the empty `Pattern()`. -/
def build_pattern (patterns : List String) : Pattern :=
  if patterns.isEmpty then ⟨[]⟩
  else ⟨patterns.map (fun pat =>
    if 0 < pyFind pat ':' then pat else "email:" ++ pat)⟩

/-! ### `_secure_sha` (revision resolution) -/

/-- `_secure_sha(gitp, refs)` inside `generate_report`: direct
`gitp.rev_parse(refs)`; on nonzero status retry as
`'%s/%s' % (project.remote, refs)`; raise `RevisionError` when both fail.
(The closure reads `project.remote`, not `gitp.remote`, hence both
parameters.) -/
def secure_sha (project : GitProject) (gitp : GitProject) (refs : String) :
    Except RevisionError String :=
  let r1 := gitp.rev_parse refs
  if r1.1 = 0 then .ok r1.2
  else
    let r2 := gitp.rev_parse (project.remote ++ "/" ++ refs)
    if r2.1 = 0 then .ok r2.2
    else .error (.unknown refs)

/-! ### Commit-log extraction -/

/-- One `values` list built by the extraction loop:
`[sha1, author email, committer email, subject]`. -/
structure LogEntry where
  sha1 : String
  author : String
  committer : String
  subject : String
deriving DecidableEq, Repr

def LogEntry.toList (e : LogEntry) : List String :=
  [e.sha1, e.author, e.committer, e.subject]

/-- One per-commit field query:
`_, val = project.log('--format=%s' % item, '%s^..%s' % (sha1, sha1))`
followed by `val.strip('"').strip()` (the status is discarded). -/
def fieldQuery (project : GitProject) (item : String) (sha1 : String) : String :=
  pyStripWs (pyStripQuote (project.log ("--format=" ++ item) (sha1 ++ "^.." ++ sha1)).2)

/-- The extraction step for one range `ref..erefs` (lines 190-202):
`ret, sha1s = project.log('--format="%H', '%s..%s' % (ref, erefs))`; on status
`0` each line is stripped of `"` and, when nonempty, expanded into a record
via three field queries; on nonzero status the range contributes nothing. -/
def extract_range (project : GitProject) (ref : String) (erefs : String) :
    List LogEntry :=
  let q := project.log "--format=\"%H" (ref ++ ".." ++ erefs)
  if q.1 = 0 then
    (pySplitLines q.2).filterMap (fun line =>
      let sha1 := pyStripQuote line
      if sha1 = "" then none
      else some { sha1 := sha1
                  author := fieldQuery project "%ae" sha1
                  committer := fieldQuery project "%ce" sha1
                  subject := fieldQuery project "%s" sha1 })
  else []

/-! ### Range resolution (lines 143-154) -/

/-- Lines 143-154 of `generate_report`: with fewer than two arguments a
console notice is printed for zero arguments (recorded as the `Bool`), the
end reference is `_secure_sha(project, args[0] if args else 'HEAD')` and the
begin references are the root ancestors `rev_list('--max-parents=0', erefs)`
split on newlines (nothing on nonzero status); with two or more arguments
`args[1]` then `args[0]` are resolved. -/
def resolve_ranges (project : GitProject) (args : List String) :
    Except RevisionError (Bool × String × List String) :=
  if args.length < 2 then
    match secure_sha project project (args.headD "HEAD") with
    | .error e => .error e
    | .ok erefs =>
      let rl := project.rev_list "--max-parents=0" erefs
      .ok (args.isEmpty, erefs, if rl.1 = 0 then pySplitLines rl.2 else [])
  else
    match secure_sha project project (args.getD 1 "") with
    | .error e => .error e
    | .ok erefs =>
      match secure_sha project project (args.getD 0 "") with
      | .error e => .error e
      | .ok bref => .ok (false, erefs, [bref])

/-! ### HTML cells and rows -/

/-- A cell handed to `FormattedFile`/table `row(...)`: either a bare string,
an `item(text, link, tag)` call, or an `item((a, b), tag)` call over two
previously built items. -/
inductive HCell where
  | str (s : String)
  | item (text : String) (link : Option String) (tag : Option String)
  | item2 (a b : HCell) (tag : Option String)
deriving DecidableEq, Repr

/-- A rendered HTML table row together with the record it renders. -/
structure HtmlRow where
  entry : LogEntry
  cells : List HCell
deriving DecidableEq, Repr

/-- Full-report HTML row (lines 227-253): `mailto:` links for author and
committer; without a truthy remote the sha1 is the bare string; with remote,
gitiles and a nonempty name the sha1 splits into `sha1[:20]` linked to
`'%s#/q/%s' % (remote, sha1)` and `sha1[20:]` linked to
`'%s/plugins/gitiles/%s/+/%s^!' % (remote, name, sha1)`; otherwise the whole
sha1 links to `'%s#/q/%s'`. -/
def fmtHtmlRowFull (remote : Option String) (gitiles : Bool) (name : String)
    (e : LogEntry) : HtmlRow :=
  let hauthor := HCell.item e.author (some ("mailto:" ++ e.author)) none
  let hcommitter := HCell.item e.committer (some ("mailto:" ++ e.committer)) none
  if truthyOpt remote = false then
    ⟨e, [HCell.str e.sha1, hauthor, hcommitter, HCell.str e.subject]⟩
  else
    let r := remote.getD ""
    if gitiles && !(name == "") then
      let sha1a := HCell.item (pyTake e.sha1 20) (some (r ++ "#/q/" ++ e.sha1)) none
      let sha1b := HCell.item (pyDrop e.sha1 20)
        (some (r ++ "/plugins/gitiles/" ++ name ++ "/+/" ++ e.sha1 ++ "^!")) none
      ⟨e, [HCell.item2 sha1a sha1b (some "pre"), hauthor, hcommitter, HCell.str e.subject]⟩
    else
      ⟨e, [HCell.item e.sha1 (some (r ++ "#/q/" ++ e.sha1)) (some "pre"),
           hauthor, hcommitter, HCell.str e.subject]⟩

/-- Filtered-report HTML row (lines 258-283): identical shape, but both query
links use `'%s#q,%s' % (remote, sha1)` instead of `'%s#/q/%s'`. -/
def fmtHtmlRowFilt (remote : Option String) (gitiles : Bool) (name : String)
    (e : LogEntry) : HtmlRow :=
  let hauthor := HCell.item e.author (some ("mailto:" ++ e.author)) none
  let hcommitter := HCell.item e.committer (some ("mailto:" ++ e.committer)) none
  if truthyOpt remote = false then
    ⟨e, [HCell.str e.sha1, hauthor, hcommitter, HCell.str e.subject]⟩
  else
    let r := remote.getD ""
    if gitiles && !(name == "") then
      let sha1a := HCell.item (pyTake e.sha1 20) (some (r ++ "#q," ++ e.sha1)) none
      let sha1b := HCell.item (pyDrop e.sha1 20)
        (some (r ++ "/plugins/gitiles/" ++ name ++ "/+/" ++ e.sha1 ++ "^!")) none
      ⟨e, [HCell.item2 sha1a sha1b (some "pre"), hauthor, hcommitter, HCell.str e.subject]⟩
    else
      ⟨e, [HCell.item e.sha1 (some (r ++ "#q," ++ e.sha1)) (some "pre"),
           hauthor, hcommitter, HCell.str e.subject]⟩

/-! ### Sections, documents, event trace -/

/-- One text-backend section: `ftext.section(refs)` followed by
`ftext.table(column)` and the rows written inside the `with` block. -/
structure TextSection where
  label : String
  column : List Nat
  rows : List LogEntry
deriving DecidableEq, Repr

/-- One HTML-backend section. -/
structure HtmlSection where
  label : String
  rows : List HtmlRow
deriving DecidableEq, Repr

/-- The four documents `generate_report` may open. -/
inductive DocId where
  | textFull
  | textFilt
  | htmlFull
  | htmlFilt
deriving DecidableEq, Repr

/-- Document-level effects, in program order: `FormattedFile.open`,
`section`, row emission, `close`. -/
inductive Event where
  | openDoc (d : DocId)
  | sectionEv (d : DocId) (label : String)
  | rowEv (d : DocId) (e : LogEntry)
  | closeDoc (d : DocId)
deriving DecidableEq, Repr

/-- The text-backend column computation (lines 205-210): starting from
`[0, 0, 0, 0]`, each cell enlarges its column to the cell's length. -/
def updColumn (column : List Nat) (item : List String) : List Nat :=
  column.zipWith (fun c col => if col.length > c then col.length else c) item

def colwidths (logs : List LogEntry) : List Nat :=
  logs.foldl (fun column item => updColumn column item.toList) [0, 0, 0, 0]

/-- Maximum string length over a list of cell texts (`0` for no rows). -/
def maxLen (xs : List String) : Nat := xs.foldl (fun a s => max a s.length) 0

/-- The open events, in source order (lines 164-183): `report.txt`,
`filter.txt` (only with a truthy pattern), `report.html`, `filter.html`. -/
def openList (hasText hasPat hasHtml : Bool) : List Event :=
  (if hasText then [Event.openDoc .textFull] else []) ++
  (if hasText && hasPat then [Event.openDoc .textFilt] else []) ++
  (if hasHtml then [Event.openDoc .htmlFull] else []) ++
  (if hasHtml && hasPat then [Event.openDoc .htmlFilt] else [])

/-- The close events, in source order (lines 285-292): `ftextp`, `fhtmlp`,
`ftext`, `fhtml`. -/
def closeList (hasText hasPat hasHtml : Bool) : List Event :=
  (if hasText && hasPat then [Event.closeDoc .textFilt] else []) ++
  (if hasHtml && hasPat then [Event.closeDoc .htmlFilt] else []) ++
  (if hasText then [Event.closeDoc .textFull] else []) ++
  (if hasHtml then [Event.closeDoc .htmlFull] else [])

/-- The per-invocation context of the rendering loop: the resolved
references, the documents that were opened, and the rendering options. -/
structure GenCtx where
  pmatch : Pattern → String → String → Bool
  pattern : Pattern
  project : GitProject
  args : List String
  erefs : String
  brefs : List String
  remote : Option String
  gitiles : Bool
  name : String
  hasText : Bool
  hasPat : Bool
  hasHtml : Bool

/-- The section label (lines 187-188):
`'%s..%s' % (ref, erefs) if len(brefs) > 0 and len(args) > 1 else '%s' % erefs`. -/
def GenCtx.labelOf (ctx : GenCtx) (ref : String) : String :=
  if 0 < ctx.brefs.length ∧ 1 < ctx.args.length then ref ++ ".." ++ ctx.erefs
  else ctx.erefs

/-- `pattern.match('e,email', committer)` as called on a record. -/
def GenCtx.matchRow (ctx : GenCtx) (e : LogEntry) : Bool :=
  ctx.pmatch ctx.pattern "e,email" e.committer

def GenCtx.extractRef (ctx : GenCtx) (ref : String) : List LogEntry :=
  extract_range ctx.project ref ctx.erefs

/-- The loop state: the accumulated `logs` (never reset between ranges) and
the content written to each open document so far, plus the effect trace. -/
structure GenState where
  logs : List LogEntry
  tfull : List TextSection
  tfilt : List TextSection
  hfull : List HtmlSection
  hfilt : List HtmlSection
  trace : List Event
deriving DecidableEq, Repr

/-- The document-level events of one loop iteration, in source order:
text full section and rows, text filtered section and rows, HTML full
section and rows, HTML filtered section and rows. -/
def iterTrace (ctx : GenCtx) (logs : List LogEntry) (ref : String) : List Event :=
  (if ctx.hasText then
      [Event.sectionEv .textFull (ctx.labelOf ref)] ++
      logs.map (Event.rowEv .textFull) ++
      (if ctx.hasText && ctx.hasPat then
          [Event.sectionEv .textFilt (ctx.labelOf ref)] ++
          (logs.filter ctx.matchRow).map (Event.rowEv .textFilt)
        else [])
    else []) ++
  (if ctx.hasHtml then
      [Event.sectionEv .htmlFull (ctx.labelOf ref)] ++
      logs.map (Event.rowEv .htmlFull) ++
      (if ctx.hasHtml && ctx.hasPat then
          [Event.sectionEv .htmlFilt (ctx.labelOf ref)] ++
          (logs.filter ctx.matchRow).map (Event.rowEv .htmlFilt)
        else [])
    else [])

/-- One iteration of `for ref in brefs` (lines 186-283): extend `logs` with
the range's records, then append one section to every open document — the
full documents receive all accumulated `logs`, the filtered ones the rows
whose committer matches, and both text tables receive the column widths
computed over all accumulated `logs`. -/
def report_step (ctx : GenCtx) (st : GenState) (ref : String) : GenState :=
  let label := ctx.labelOf ref
  let logs := st.logs ++ ctx.extractRef ref
  let column := colwidths logs
  let filtered := logs.filter ctx.matchRow
  { logs := logs
    tfull := if ctx.hasText then st.tfull ++ [⟨label, column, logs⟩] else st.tfull
    tfilt := if ctx.hasText && ctx.hasPat then st.tfilt ++ [⟨label, column, filtered⟩]
             else st.tfilt
    hfull := if ctx.hasHtml then
               st.hfull ++ [⟨label, logs.map (fmtHtmlRowFull ctx.remote ctx.gitiles ctx.name)⟩]
             else st.hfull
    hfilt := if ctx.hasHtml && ctx.hasPat then
               st.hfilt ++ [⟨label, filtered.map (fmtHtmlRowFilt ctx.remote ctx.gitiles ctx.name)⟩]
             else st.hfilt
    trace := st.trace ++ iterTrace ctx logs ref }

/-- The context assembled by `generate_report` after range resolution:
`pattern = build_pattern(patterns)`, and the document predicates from
`format` (lines 164-183: text documents for `'all'`/`'text'`, HTML documents
for `'all'`/`'html'`, filtered variants only with a truthy pattern). -/
def mkCtx (pmatch : Pattern → String → String → Bool) (project : GitProject)
    (args : List String) (erefs : String) (brefs : List String) (name : String)
    (format : Option String) (patterns : List String)
    (remote : Option String) (gitiles : Bool) : GenCtx :=
  let pattern := build_pattern patterns
  { pmatch := pmatch, pattern := pattern, project := project, args := args
    erefs := erefs, brefs := brefs, remote := remote, gitiles := gitiles
    name := name
    hasText := truthyOpt format && (format == some "all" || format == some "text")
    hasPat := patternTruthy pattern
    hasHtml := truthyOpt format && (format == some "all" || format == some "html") }

/-- The aggregate outcome of one successful `generate_report` run. -/
structure Report where
  noticed : Bool
  erefs : String
  brefs : List String
  textFull : Option (List TextSection)
  textFilt : Option (List TextSection)
  htmlFull : Option (List HtmlSection)
  htmlFilt : Option (List HtmlSection)
  logs : List LogEntry
  trace : List Event
deriving DecidableEq, Repr, Inhabited

/-- The body of `generate_report` after resolution: open the documents, run
the rendering loop over `brefs`, close `ftextp`, `fhtmlp`, `ftext`, `fhtml`
in that order, and return the accumulated `logs`. -/
def mkReport (ctx : GenCtx) (noticed : Bool) : Report :=
  let st := ctx.brefs.foldl (report_step ctx)
    ⟨[], [], [], [], [], openList ctx.hasText ctx.hasPat ctx.hasHtml⟩
  { noticed := noticed, erefs := ctx.erefs, brefs := ctx.brefs
    textFull := if ctx.hasText then some st.tfull else none
    textFilt := if ctx.hasText && ctx.hasPat then some st.tfilt else none
    htmlFull := if ctx.hasHtml then some st.hfull else none
    htmlFilt := if ctx.hasHtml && ctx.hasPat then some st.hfilt else none
    logs := st.logs
    trace := st.trace ++ closeList ctx.hasText ctx.hasPat ctx.hasHtml }

/-- `GitDiffSubcmd.generate_report(args, project, name, output, format,
patterns, remote, gitiles)`.  `pmatch` stands for the external
`topics.Pattern.match` method; `output` only carries the directory joined
into the fixed file names and does not influence document content. -/
def generate_report (pmatch : Pattern → String → String → Bool)
    (args : List String) (project : GitProject) (name : String)
    (output : String) (format : Option String) (patterns : List String)
    (remote : Option String := none) (gitiles : Bool := true) :
    Except RevisionError Report :=
  let _ := output
  match resolve_ranges project args with
  | .error e => .error e
  | .ok (noticed, erefs, brefs) =>
    .ok (mkReport (mkCtx pmatch project args erefs brefs name format patterns
      remote gitiles) noticed)

/-! ### Closed forms for the rendering loop -/

/-- The records accumulated once the ranges up to index `i` have been
extracted, starting from `base`. -/
def cumLogs (ctx : GenCtx) (base : List LogEntry) (refs : List String)
    (i : Nat) : List LogEntry :=
  base ++ (refs.take (i + 1)).flatMap ctx.extractRef

/-- Closed form of the full text document's sections. -/
def expTextFull (ctx : GenCtx) : List LogEntry → List String → List TextSection
  | _, [] => []
  | base, r :: rest =>
    let logs := base ++ ctx.extractRef r
    ⟨ctx.labelOf r, colwidths logs, logs⟩ :: expTextFull ctx logs rest

/-- Closed form of the filtered text document's sections. -/
def expTextFilt (ctx : GenCtx) : List LogEntry → List String → List TextSection
  | _, [] => []
  | base, r :: rest =>
    let logs := base ++ ctx.extractRef r
    ⟨ctx.labelOf r, colwidths logs, logs.filter ctx.matchRow⟩ :: expTextFilt ctx logs rest

/-- Closed form of the full HTML document's sections. -/
def expHtmlFull (ctx : GenCtx) : List LogEntry → List String → List HtmlSection
  | _, [] => []
  | base, r :: rest =>
    let logs := base ++ ctx.extractRef r
    ⟨ctx.labelOf r, logs.map (fmtHtmlRowFull ctx.remote ctx.gitiles ctx.name)⟩ ::
      expHtmlFull ctx logs rest

/-- Closed form of the filtered HTML document's sections. -/
def expHtmlFilt (ctx : GenCtx) : List LogEntry → List String → List HtmlSection
  | _, [] => []
  | base, r :: rest =>
    let logs := base ++ ctx.extractRef r
    ⟨ctx.labelOf r, (logs.filter ctx.matchRow).map
        (fmtHtmlRowFilt ctx.remote ctx.gitiles ctx.name)⟩ ::
      expHtmlFilt ctx logs rest

/-- Closed form of the rendering part of the event trace. -/
def expTrace (ctx : GenCtx) : List LogEntry → List String → List Event
  | _, [] => []
  | base, r :: rest =>
    let logs := base ++ ctx.extractRef r
    iterTrace ctx logs r ++ expTrace ctx logs rest

/-! ### The `execute` remote-parsing step -/

/-- A Python runtime value, as far as the module-level `urlparse` binding is
concerned: either a function object or a module object. -/
inductive PyVal where
  | pyFunc (fname : String)
  | pyModule (mname : String)
deriving DecidableEq, Repr

/-- The module-level import (lines 4-7):
`try: from urllib.parse import urlparse` and, on ImportError, the Python 2
fallback importing the same name from the `urlparse` module.  Both branches are
from-imports of the `urlparse` FUNCTION, so the module name `urlparse` is
bound to a function object on either interpreter, never to a module. -/
def urlparseBinding : PyVal := PyVal.pyFunc "urlparse"

/-- The Python exception the attribute access can raise. -/
inductive PyExn where
  | attributeError (objKind attr : String)
deriving DecidableEq, Repr

/-- The `(name, remote)` pair `execute` computes before calling
`generate_report`. -/
structure RemoteConfig where
  name : Option String
  remote : Option String
deriving DecidableEq, Repr

/-- Lines 94-101 of `GitDiffSubcmd.execute`: with a truthy `--remote` the code
evaluates `urlparse.urlparse(options.remote)` — an attribute access `urlparse`
on the value bound by the module-level from-import.  On a function object that
access raises `AttributeError`; only a module object would expose the
attribute (that arm is unreachable with `urlparseBinding` and is left as the
identity configuration). -/
def execute_remote_parse (optRemote : Option String) : Except PyExn RemoteConfig :=
  if truthyOpt optRemote then
    match urlparseBinding with
    | .pyFunc f => .error (.attributeError ("function " ++ f) "urlparse")
    | .pyModule _ => .ok ⟨none, optRemote⟩
  else .ok ⟨none, optRemote⟩

/-! ### Concrete runs used by counterexamples and witnesses -/

/-- `project.log` of a repository with head `H` and two root ancestors `R1`,
`R2`; `R1..H` holds commit `c1` and `R2..H` holds commit `c2`. -/
def cxLog : String → String → Nat × String := fun fmt range =>
  if fmt = "--format=\"%H" then
    if range = "R1..H" then (0, "\"c1")
    else if range = "R2..H" then (0, "\"c2")
    else (1, "")
  else if fmt = "--format=%ae" then
    if range = "c1^..c1" then (0, "a1@x")
    else if range = "c2^..c2" then (0, "a2@x") else (1, "")
  else if fmt = "--format=%ce" then
    if range = "c1^..c1" then (0, "m1@x")
    else if range = "c2^..c2" then (0, "m2@x") else (1, "")
  else if fmt = "--format=%s" then
    if range = "c1^..c1" then (0, "s1")
    else if range = "c2^..c2" then (0, "s2") else (1, "")
  else (1, "")

def cxProject : GitProject :=
  { rev_parse := fun r => if r = "HEAD" then (0, "H") else (1, "")
    rev_list := fun _ e => if e = "H" then (0, "R1\nR2") else (1, "")
    log := cxLog
    remote := "origin" }

def cxE1 : LogEntry := ⟨"c1", "a1@x", "m1@x", "s1"⟩

def cxE2 : LogEntry := ⟨"c2", "a2@x", "m2@x", "s2"⟩

/-- One-reference text run on `cxProject`: two ranges `R1..H` and `R2..H`. -/
def run1 : Except RevisionError Report :=
  generate_report patternMatch ["HEAD"] cxProject "" "out" (some "text") [] none true

def rpt1 : Report := run1.toOption.getD default

/-- A repository with a single root ancestor `rootsha` below `headsha`. -/
def cx0Project : GitProject :=
  { rev_parse := fun r => if r = "HEAD" then (0, "headsha") else (1, "")
    rev_list := fun _ e => if e = "headsha" then (0, "rootsha") else (1, "")
    log := fun fmt range =>
      if fmt = "--format=\"%H" && range = "rootsha..headsha" then (0, "\"c0")
      else if fmt = "--format=%ae" && range = "c0^..c0" then (0, "a0@x")
      else if fmt = "--format=%ce" && range = "c0^..c0" then (0, "m0@x")
      else if fmt = "--format=%s" && range = "c0^..c0" then (0, "s0")
      else (1, "")
    remote := "origin" }

/-- Zero-reference text run on `cx0Project` (the `HEAD` default). -/
def run0 : Except RevisionError Report :=
  generate_report patternMatch [] cx0Project "" "out" (some "text") [] none true

def rpt0 : Report := run0.toOption.getD default

/-- A repository with one root `R`, whose range `R..H` holds `c1` (committer
`a-very-long-committer@example.org`) and `c2` (committer `alice@x.com`). -/
def cxFLog : String → String → Nat × String := fun fmt range =>
  if fmt = "--format=\"%H" then
    if range = "R..H" then (0, "\"c1\n\"c2") else (1, "")
  else if fmt = "--format=%ae" then
    if range = "c1^..c1" then (0, "a@x")
    else if range = "c2^..c2" then (0, "b@x") else (1, "")
  else if fmt = "--format=%ce" then
    if range = "c1^..c1" then (0, "a-very-long-committer@example.org")
    else if range = "c2^..c2" then (0, "alice@x.com") else (1, "")
  else if fmt = "--format=%s" then
    if range = "c1^..c1" then (0, "s1")
    else if range = "c2^..c2" then (0, "s2") else (1, "")
  else (1, "")

def cxFProject : GitProject :=
  { rev_parse := fun r => if r = "HEAD" then (0, "H") else (1, "")
    rev_list := fun _ e => if e = "H" then (0, "R") else (1, "")
    log := cxFLog
    remote := "origin" }

def cxFE1 : LogEntry := ⟨"c1", "a@x", "a-very-long-committer@example.org", "s1"⟩

def cxFE2 : LogEntry := ⟨"c2", "b@x", "alice@x.com", "s2"⟩

/-- Filtered run: pattern `alice@x.com`, format `all`, remote and gitiles
configured. -/
def runF : Except RevisionError Report :=
  generate_report patternMatch ["HEAD"] cxFProject "myproj" "out" (some "all")
    ["alice@x.com"] (some "https://r.ex") true

def rptF : Report := runF.toOption.getD default

/-- A repository where `dev` resolves only through the remote-tracking name
`origin/dev`. -/
def wProj : GitProject :=
  { rev_parse := fun r => if r = "origin/dev" then (0, "remsha") else (1, "")
    rev_list := fun _ _ => (1, "")
    log := fun _ _ => (1, "")
    remote := "origin" }

/-- The first rendered row of the full HTML document of `runF`. -/
def rowHF1 : HtmlRow :=
  ⟨cxFE1,
    [HCell.item2 (HCell.item "c1" (some "https://r.ex#/q/c1") none)
      (HCell.item "" (some "https://r.ex/plugins/gitiles/myproj/+/c1^!") none)
      (some "pre"),
    HCell.item "a@x" (some "mailto:a@x") none,
    HCell.item "a-very-long-committer@example.org"
      (some "mailto:a-very-long-committer@example.org") none,
    HCell.str "s1"]⟩

/-- The second rendered row of the full HTML document of `runF`. -/
def rowHF2 : HtmlRow :=
  ⟨cxFE2,
    [HCell.item2 (HCell.item "c2" (some "https://r.ex#/q/c2") none)
      (HCell.item "" (some "https://r.ex/plugins/gitiles/myproj/+/c2^!") none)
      (some "pre"),
    HCell.item "b@x" (some "mailto:b@x") none,
    HCell.item "alice@x.com" (some "mailto:alice@x.com") none,
    HCell.str "s2"]⟩

/-- Master characterization of the rendering loop: folding `report_step`
over any reference list from any state. -/
theorem foldl_report_step (ctx : GenCtx) :
    ∀ (refs : List String) (st : GenState),
      refs.foldl (report_step ctx) st =
        { logs := st.logs ++ refs.flatMap ctx.extractRef
          tfull := if ctx.hasText then st.tfull ++ expTextFull ctx st.logs refs
                   else st.tfull
          tfilt := if ctx.hasText && ctx.hasPat then
                     st.tfilt ++ expTextFilt ctx st.logs refs
                   else st.tfilt
          hfull := if ctx.hasHtml then st.hfull ++ expHtmlFull ctx st.logs refs
                   else st.hfull
          hfilt := if ctx.hasHtml && ctx.hasPat then
                     st.hfilt ++ expHtmlFilt ctx st.logs refs
                   else st.hfilt
          trace := st.trace ++ expTrace ctx st.logs refs } := by
  intro refs
  induction refs with
  | nil =>
    intro st
    simp [expTextFull, expTextFilt, expHtmlFull, expHtmlFilt, expTrace]
  | cons r rest ih =>
    intro st
    rw [List.foldl_cons, ih]
    simp only [report_step, expTextFull, expTextFilt, expHtmlFull, expHtmlFilt,
      expTrace, List.flatMap_cons, List.append_assoc]
    simp only [GenState.mk.injEq]
    refine ⟨?_, ?_, ?_, ?_, ?_, ?_⟩ <;>
      cases hT : ctx.hasText <;> cases hP : ctx.hasPat <;> cases hH : ctx.hasHtml <;>
        simp [hT, hP, hH, iterTrace, expTrace]

theorem cumLogs_zero (ctx : GenCtx) (base : List LogEntry) (r : String)
    (rest : List String) :
    cumLogs ctx base (r :: rest) 0 = base ++ ctx.extractRef r := by
  simp [cumLogs]

theorem cumLogs_cons (ctx : GenCtx) (base : List LogEntry) (r : String)
    (rest : List String) (j : Nat) :
    cumLogs ctx base (r :: rest) (j + 1) =
      cumLogs ctx (base ++ ctx.extractRef r) rest j := by
  simp [cumLogs, List.take_succ_cons]

theorem expTextFull_length (ctx : GenCtx) :
    ∀ (refs : List String) (base : List LogEntry),
      (expTextFull ctx base refs).length = refs.length := by
  intro refs
  induction refs with
  | nil => intro base; rfl
  | cons r rest ih => intro base; simp [expTextFull, ih]

theorem expTextFilt_length (ctx : GenCtx) :
    ∀ (refs : List String) (base : List LogEntry),
      (expTextFilt ctx base refs).length = refs.length := by
  intro refs
  induction refs with
  | nil => intro base; rfl
  | cons r rest ih => intro base; simp [expTextFilt, ih]

theorem expHtmlFull_length (ctx : GenCtx) :
    ∀ (refs : List String) (base : List LogEntry),
      (expHtmlFull ctx base refs).length = refs.length := by
  intro refs
  induction refs with
  | nil => intro base; rfl
  | cons r rest ih => intro base; simp [expHtmlFull, ih]

theorem expHtmlFilt_length (ctx : GenCtx) :
    ∀ (refs : List String) (base : List LogEntry),
      (expHtmlFilt ctx base refs).length = refs.length := by
  intro refs
  induction refs with
  | nil => intro base; rfl
  | cons r rest ih => intro base; simp [expHtmlFilt, ih]

theorem expTextFull_get (ctx : GenCtx) :
    ∀ (refs : List String) (base : List LogEntry) (i : Nat)
      (hi : i < (expTextFull ctx base refs).length) (hr : i < refs.length),
      (expTextFull ctx base refs).get ⟨i, hi⟩ =
        ⟨ctx.labelOf (refs.get ⟨i, hr⟩), colwidths (cumLogs ctx base refs i),
          cumLogs ctx base refs i⟩ := by
  intro refs
  induction refs with
  | nil => intro base i hi hr; exact absurd hr (Nat.not_lt_zero i)
  | cons r rest ih =>
    intro base i hi hr
    match i with
    | 0 => simp [expTextFull, cumLogs]
    | Nat.succ j =>
      have hi' : j < (expTextFull ctx (base ++ ctx.extractRef r) rest).length := by
        simpa [expTextFull] using hi
      have hr' : j < rest.length := Nat.lt_of_succ_lt_succ hr
      calc (expTextFull ctx base (r :: rest)).get ⟨j + 1, hi⟩
          = (expTextFull ctx (base ++ ctx.extractRef r) rest).get ⟨j, hi'⟩ := by
            simp [expTextFull]
        _ = _ := by rw [ih, cumLogs_cons]; rfl

theorem expTextFilt_get (ctx : GenCtx) :
    ∀ (refs : List String) (base : List LogEntry) (i : Nat)
      (hi : i < (expTextFilt ctx base refs).length) (hr : i < refs.length),
      (expTextFilt ctx base refs).get ⟨i, hi⟩ =
        ⟨ctx.labelOf (refs.get ⟨i, hr⟩), colwidths (cumLogs ctx base refs i),
          (cumLogs ctx base refs i).filter ctx.matchRow⟩ := by
  intro refs
  induction refs with
  | nil => intro base i hi hr; exact absurd hr (Nat.not_lt_zero i)
  | cons r rest ih =>
    intro base i hi hr
    match i with
    | 0 => simp [expTextFilt, cumLogs]
    | Nat.succ j =>
      have hi' : j < (expTextFilt ctx (base ++ ctx.extractRef r) rest).length := by
        simpa [expTextFilt] using hi
      have hr' : j < rest.length := Nat.lt_of_succ_lt_succ hr
      calc (expTextFilt ctx base (r :: rest)).get ⟨j + 1, hi⟩
          = (expTextFilt ctx (base ++ ctx.extractRef r) rest).get ⟨j, hi'⟩ := by
            simp [expTextFilt]
        _ = _ := by rw [ih, cumLogs_cons]; rfl

theorem expHtmlFull_get (ctx : GenCtx) :
    ∀ (refs : List String) (base : List LogEntry) (i : Nat)
      (hi : i < (expHtmlFull ctx base refs).length) (hr : i < refs.length),
      (expHtmlFull ctx base refs).get ⟨i, hi⟩ =
        ⟨ctx.labelOf (refs.get ⟨i, hr⟩),
          (cumLogs ctx base refs i).map (fmtHtmlRowFull ctx.remote ctx.gitiles ctx.name)⟩ := by
  intro refs
  induction refs with
  | nil => intro base i hi hr; exact absurd hr (Nat.not_lt_zero i)
  | cons r rest ih =>
    intro base i hi hr
    match i with
    | 0 => simp [expHtmlFull, cumLogs]
    | Nat.succ j =>
      have hi' : j < (expHtmlFull ctx (base ++ ctx.extractRef r) rest).length := by
        simpa [expHtmlFull] using hi
      have hr' : j < rest.length := Nat.lt_of_succ_lt_succ hr
      calc (expHtmlFull ctx base (r :: rest)).get ⟨j + 1, hi⟩
          = (expHtmlFull ctx (base ++ ctx.extractRef r) rest).get ⟨j, hi'⟩ := by
            simp [expHtmlFull]
        _ = _ := by rw [ih, cumLogs_cons]; rfl

theorem expHtmlFilt_get (ctx : GenCtx) :
    ∀ (refs : List String) (base : List LogEntry) (i : Nat)
      (hi : i < (expHtmlFilt ctx base refs).length) (hr : i < refs.length),
      (expHtmlFilt ctx base refs).get ⟨i, hi⟩ =
        ⟨ctx.labelOf (refs.get ⟨i, hr⟩),
          ((cumLogs ctx base refs i).filter ctx.matchRow).map
            (fmtHtmlRowFilt ctx.remote ctx.gitiles ctx.name)⟩ := by
  intro refs
  induction refs with
  | nil => intro base i hi hr; exact absurd hr (Nat.not_lt_zero i)
  | cons r rest ih =>
    intro base i hi hr
    match i with
    | 0 => simp [expHtmlFilt, cumLogs]
    | Nat.succ j =>
      have hi' : j < (expHtmlFilt ctx (base ++ ctx.extractRef r) rest).length := by
        simpa [expHtmlFilt] using hi
      have hr' : j < rest.length := Nat.lt_of_succ_lt_succ hr
      calc (expHtmlFilt ctx base (r :: rest)).get ⟨j + 1, hi⟩
          = (expHtmlFilt ctx (base ++ ctx.extractRef r) rest).get ⟨j, hi'⟩ := by
            simp [expHtmlFilt]
        _ = _ := by rw [ih, cumLogs_cons]; rfl

theorem ite_gt_eq_max (a l : Nat) : (if l > a then l else a) = max a l := by
  by_cases h : a < l
  · simp [h, Nat.max_eq_right (Nat.le_of_lt h)]
  · simp [h, Nat.max_eq_left (Nat.le_of_not_lt h)]

theorem colwidths_foldl :
    ∀ (logs : List LogEntry) (a b c d : Nat),
      logs.foldl (fun column item => updColumn column item.toList) [a, b, c, d] =
        [logs.foldl (fun x e => max x e.sha1.length) a,
         logs.foldl (fun x e => max x e.author.length) b,
         logs.foldl (fun x e => max x e.committer.length) c,
         logs.foldl (fun x e => max x e.subject.length) d] := by
  intro logs
  induction logs with
  | nil => intro a b c d; rfl
  | cons e rest ih =>
    intro a b c d
    have hstep : updColumn [a, b, c, d] e.toList =
        [max a e.sha1.length, max b e.author.length,
         max c e.committer.length, max d e.subject.length] := by
      simp [updColumn, LogEntry.toList, ite_gt_eq_max]
    simp only [List.foldl_cons, hstep, ih]

/-- `colwidths` computes exactly the per-column maximum cell length. -/
theorem colwidths_eq_maxLen (logs : List LogEntry) :
    colwidths logs =
      [maxLen (logs.map (·.sha1)), maxLen (logs.map (·.author)),
       maxLen (logs.map (·.committer)), maxLen (logs.map (·.subject))] := by
  unfold colwidths maxLen
  rw [colwidths_foldl]
  simp [List.foldl_map]

/-! ### Inversion of `generate_report` -/

theorem generate_report_ok {pm : Pattern → String → String → Bool}
    {args : List String} {project : GitProject} {name output : String}
    {format : Option String} {patterns : List String} {remote : Option String}
    {gitiles : Bool} {rpt : Report}
    (h : generate_report pm args project name output format patterns remote
      gitiles = .ok rpt) :
    ∃ noticed erefs brefs,
      resolve_ranges project args = .ok (noticed, erefs, brefs) ∧
      rpt = mkReport
        (mkCtx pm project args erefs brefs name format patterns remote gitiles)
        noticed := by
  cases hres : resolve_ranges project args with
  | error e => simp [generate_report, hres] at h
  | ok v =>
    obtain ⟨n, e, b⟩ := v
    refine ⟨n, e, b, rfl, ?_⟩
    simp [generate_report, hres] at h
    exact h.symm

theorem mkReport_fields (ctx : GenCtx) (noticed : Bool) :
    (mkReport ctx noticed).noticed = noticed ∧
    (mkReport ctx noticed).erefs = ctx.erefs ∧
    (mkReport ctx noticed).brefs = ctx.brefs ∧
    (mkReport ctx noticed).logs = ctx.brefs.flatMap ctx.extractRef ∧
    (mkReport ctx noticed).textFull =
      (if ctx.hasText then some (expTextFull ctx [] ctx.brefs) else none) ∧
    (mkReport ctx noticed).textFilt =
      (if ctx.hasText && ctx.hasPat then some (expTextFilt ctx [] ctx.brefs)
       else none) ∧
    (mkReport ctx noticed).htmlFull =
      (if ctx.hasHtml then some (expHtmlFull ctx [] ctx.brefs) else none) ∧
    (mkReport ctx noticed).htmlFilt =
      (if ctx.hasHtml && ctx.hasPat then some (expHtmlFilt ctx [] ctx.brefs)
       else none) ∧
    (mkReport ctx noticed).trace =
      openList ctx.hasText ctx.hasPat ctx.hasHtml ++ expTrace ctx [] ctx.brefs ++
        closeList ctx.hasText ctx.hasPat ctx.hasHtml := by
  by_cases hT : ctx.hasText <;> by_cases hP : ctx.hasPat <;>
    by_cases hH : ctx.hasHtml <;>
      simp [mkReport, foldl_report_step, hT, hP, hH]

theorem fmtHtmlRowFull_entry (remote : Option String) (gitiles : Bool)
    (name : String) (e : LogEntry) :
    (fmtHtmlRowFull remote gitiles name e).entry = e := by
  unfold fmtHtmlRowFull
  by_cases h1 : truthyOpt remote = false <;>
    by_cases h2 : (gitiles && !(name == "")) = true <;> simp [h1, h2]

theorem fmtHtmlRowFilt_entry (remote : Option String) (gitiles : Bool)
    (name : String) (e : LogEntry) :
    (fmtHtmlRowFilt remote gitiles name e).entry = e := by
  unfold fmtHtmlRowFilt
  by_cases h1 : truthyOpt remote = false <;>
    by_cases h2 : (gitiles && !(name == "")) = true <;> simp [h1, h2]

/-! ### C3: two-step revision resolution -/

/-- **C3** (confirmed).  For every reference string, resolution first attempts
`rev_parse(refs)` directly; if that succeeds its result is returned (and the
outcome does not depend on the remote-qualified lookup at all, witnessed by
independence from the `project` supplying the remote name); if it fails, the
retry is `rev_parse('<remote>/<ref>')`; a `RevisionError` is raised if and
only if both attempts return nonzero status. -/
theorem C3_secure_sha_two_step (project gitp : GitProject) (refs : String) :
    ((gitp.rev_parse refs).1 = 0 →
      secure_sha project gitp refs = .ok (gitp.rev_parse refs).2 ∧
      ∀ q : GitProject, secure_sha q gitp refs = secure_sha project gitp refs) ∧
    ((gitp.rev_parse refs).1 ≠ 0 →
      secure_sha project gitp refs =
        (if (gitp.rev_parse (project.remote ++ "/" ++ refs)).1 = 0 then
          .ok (gitp.rev_parse (project.remote ++ "/" ++ refs)).2
        else .error (.unknown refs))) ∧
    ((∃ err, secure_sha project gitp refs = .error err) ↔
      ((gitp.rev_parse refs).1 ≠ 0 ∧
        (gitp.rev_parse (project.remote ++ "/" ++ refs)).1 ≠ 0)) := by
  unfold secure_sha
  by_cases h1 : (gitp.rev_parse refs).1 = 0
  · simp [h1]
  · by_cases h2 : (gitp.rev_parse (project.remote ++ "/" ++ refs)).1 = 0 <;>
      simp [h1, h2]

theorem C3_secure_sha_two_step_witness :
    secure_sha wProj wProj "dev" = .ok "remsha" := by
  have h := (C3_secure_sha_two_step wProj wProj "dev").2.1 (by decide)
  rw [h]
  rfl

/-! ### C4: pattern-token rewriting -/

/-- **C4** counterexample.  The claim states that every raw token containing
`:` is kept verbatim; but `build_pattern` tests `pat.find(':') > 0`, so the
token `":x"` — which contains `:` at index 0 — is rewritten to `"email::x"`
rather than kept. -/
theorem C4_counterexample :
    (":x".data.contains ':') = true ∧
    (build_pattern [":x"]).pats = ["email::x"] ∧
    (build_pattern [":x"]).pats ≠ [":x"] := by decide

/-- **C4 (amended)**.  `build_pattern` keeps verbatim exactly those raw tokens
whose first `:` occurs at a positive index and rewrites every other token
(no `:` at all, or a leading `:`) to `email:<token>`; every output token
arises this way from some input token; and building from `["alice@x.com"]`
yields the same `Pattern` as building from `["email:alice@x.com"]`. -/
theorem C4_build_pattern_amended (patterns : List String) (tok : String)
    (htok : tok ∈ patterns) :
    (0 < pyFind tok ':' → tok ∈ (build_pattern patterns).pats) ∧
    (pyFind tok ':' ≤ 0 → ("email:" ++ tok) ∈ (build_pattern patterns).pats) ∧
    (∀ s, s ∈ (build_pattern patterns).pats →
      ∃ t, t ∈ patterns ∧
        ((0 < pyFind t ':' ∧ s = t) ∨ (pyFind t ':' ≤ 0 ∧ s = "email:" ++ t))) ∧
    build_pattern ["alice@x.com"] = build_pattern ["email:alice@x.com"] := by
  have hne : patterns.isEmpty = false := by
    cases patterns with
    | nil => cases htok
    | cons a l => rfl
  have hbp : (build_pattern patterns).pats =
      patterns.map (fun pat =>
        if 0 < pyFind pat ':' then pat else "email:" ++ pat) := by
    simp [build_pattern, hne]
  refine ⟨?_, ?_, ?_, by decide⟩
  · intro h
    rw [hbp]
    exact List.mem_map.mpr ⟨tok, htok, by simp [h]⟩
  · intro h
    rw [hbp]
    refine List.mem_map.mpr ⟨tok, htok, ?_⟩
    have hnp : ¬ (0 < pyFind tok ':') := Int.not_lt.mpr h
    simp [hnp]
  · intro s hs
    rw [hbp] at hs
    obtain ⟨t, ht, hts⟩ := List.mem_map.mp hs
    by_cases hp : 0 < pyFind t ':'
    · refine ⟨t, ht, Or.inl ⟨hp, ?_⟩⟩
      rw [if_pos hp] at hts
      exact hts.symm
    · refine ⟨t, ht, Or.inr ⟨Int.not_lt.mp hp, ?_⟩⟩
      rw [if_neg hp] at hts
      exact hts.symm

theorem C4_build_pattern_amended_witness :
    "committer:bob" ∈ (build_pattern ["alice@x.com", "committer:bob"]).pats ∧
    ("email:" ++ "alice@x.com") ∈
      (build_pattern ["alice@x.com", "committer:bob"]).pats := by
  have h1 := C4_build_pattern_amended ["alice@x.com", "committer:bob"]
    "committer:bob" (by decide)
  have h2 := C4_build_pattern_amended ["alice@x.com", "committer:bob"]
    "alice@x.com" (by decide)
  exact ⟨h1.1 (by decide), h2.2.1 (by decide)⟩

/-! ### C9: the `--remote` URL parsing step -/

/-- **C9** (code bug).  The claim describes the intended parse of a `--remote`
URL with an embedded path, but with a truthy `--remote` the code evaluates
`urlparse.urlparse(options.remote)` where the module-level name `urlparse` is
bound to the `urlparse` function by the from-import (on Python 3 and
Python 2 alike), so the attribute access raises `AttributeError` before any
URL is parsed. -/
theorem C9_execute_remote_attribute_error :
    execute_remote_parse (some "https://review.example.com/myproj") =
      .error (.attributeError "function urlparse" "urlparse") := by decide

/-! ### Inversion of `resolve_ranges` -/

theorem resolve_ranges_two (project : GitProject) (a b : String)
    (rest : List String) {noticed : Bool} {erefs : String} {brefs : List String}
    (h : resolve_ranges project (a :: b :: rest) = .ok (noticed, erefs, brefs)) :
    noticed = false ∧ secure_sha project project b = .ok erefs ∧
    ∃ bref, secure_sha project project a = .ok bref ∧ brefs = [bref] := by
  unfold resolve_ranges at h
  have hlen : ¬ (a :: b :: rest).length < 2 := by
    simp only [List.length_cons]
    omega
  rw [if_neg hlen] at h
  have hgd1 : (a :: b :: rest).getD 1 "" = b := rfl
  have hgd0 : (a :: b :: rest).getD 0 "" = a := rfl
  rw [hgd1, hgd0] at h
  cases h1 : secure_sha project project b with
  | error e => rw [h1] at h; cases h
  | ok v1 =>
    rw [h1] at h
    cases h2 : secure_sha project project a with
    | error e => rw [h2] at h; cases h
    | ok v2 =>
      rw [h2] at h
      simp only [Except.ok.injEq, Prod.mk.injEq] at h
      obtain ⟨hn, he, hb⟩ := h
      exact ⟨hn.symm, by rw [he], v2, rfl, hb.symm⟩

theorem resolve_ranges_short (project : GitProject) (args : List String)
    (hlen : args.length < 2) {noticed : Bool} {erefs : String}
    {brefs : List String}
    (h : resolve_ranges project args = .ok (noticed, erefs, brefs)) :
    noticed = args.isEmpty ∧
    secure_sha project project (args.headD "HEAD") = .ok erefs ∧
    brefs = (if (project.rev_list "--max-parents=0" erefs).1 = 0 then
      pySplitLines (project.rev_list "--max-parents=0" erefs).2 else []) := by
  unfold resolve_ranges at h
  rw [if_pos hlen] at h
  cases h1 : secure_sha project project (args.headD "HEAD") with
  | error e => rw [h1] at h; cases h
  | ok v1 =>
    rw [h1] at h
    simp only [Except.ok.injEq, Prod.mk.injEq] at h
    obtain ⟨hn, he, hb⟩ := h
    subst he
    exact ⟨hn.symm, rfl, hb.symm⟩

/-! ### C1: section contents of the full report documents -/

/-- **C1** counterexample.  In the one-reference run `run1` the repository has
two root ancestors, giving the two ranges `R1..H` and `R2..H` with one commit
each; because `logs` is never reset between loop iterations, the second
full-text section contains the records of BOTH ranges (`[cxE1, cxE2]`), not
exactly the records extracted from `R2..H` (`[cxE2]`). -/
theorem C1_counterexample :
    run1 = .ok rpt1 ∧
    rpt1.brefs = ["R1", "R2"] ∧
    rpt1.textFull = some
      [⟨"H", [2, 4, 4, 2], [cxE1]⟩, ⟨"H", [2, 4, 4, 2], [cxE1, cxE2]⟩] ∧
    extract_range cxProject "R2" rpt1.erefs = [cxE2] ∧
    ([cxE1, cxE2] : List LogEntry) ≠ [cxE2] := by decide

/-- **C1 (amended)**.  In every successful `generate_report` run, the `i`-th
section of each full report document (text and HTML) contains exactly the
concatenation of the records extracted from the ranges up to and including
the `i`-th — the accumulated `logs` — in extraction order; in particular, for
a two-reference input `(A, B)` there is a single range, so the single section
contains exactly the commits extracted from `A..B`. -/
theorem C1_full_sections_cumulative
    (pm : Pattern → String → String → Bool) (args : List String)
    (project : GitProject) (name output : String) (format : Option String)
    (patterns : List String) (remote : Option String) (gitiles : Bool)
    (rpt : Report)
    (h : generate_report pm args project name output format patterns remote
      gitiles = .ok rpt) :
    (∀ secs, rpt.textFull = some secs →
      secs.length = rpt.brefs.length ∧
      ∀ i (hi : i < secs.length) (hb : i < rpt.brefs.length),
        (secs.get ⟨i, hi⟩).rows =
          (rpt.brefs.take (i + 1)).flatMap
            (fun r => extract_range project r rpt.erefs)) ∧
    (∀ hsecs, rpt.htmlFull = some hsecs →
      hsecs.length = rpt.brefs.length ∧
      ∀ i (hi : i < hsecs.length) (hb : i < rpt.brefs.length),
        ((hsecs.get ⟨i, hi⟩).rows).map (·.entry) =
          (rpt.brefs.take (i + 1)).flatMap
            (fun r => extract_range project r rpt.erefs)) ∧
    (∀ a b rest, args = a :: b :: rest →
      ∀ secs, rpt.textFull = some secs →
        secs.map (·.rows) =
          [rpt.brefs.flatMap (fun r => extract_range project r rpt.erefs)]) := by
  obtain ⟨noticed, erefs, brefs, hres, hrpt⟩ := generate_report_ok h
  subst hrpt
  obtain ⟨hN, hE, hB, hL, hTF, hTf, hHF, hHf, hTr⟩ :=
    mkReport_fields
      (mkCtx pm project args erefs brefs name format patterns remote gitiles)
      noticed
  set ctx := mkCtx pm project args erefs brefs name format patterns remote
    gitiles with hctx
  refine ⟨?_, ?_, ?_⟩
  · intro secs hsecs
    rw [hTF] at hsecs
    by_cases hT : ctx.hasText
    · rw [if_pos hT] at hsecs
      have hs := Option.some.inj hsecs
      subst hs
      refine ⟨by rw [hB, expTextFull_length], ?_⟩
      intro i hi hb
      have hr : i < ctx.brefs.length := by rw [← hB]; exact hb
      rw [expTextFull_get ctx ctx.brefs [] i hi hr, hB, hE]
      simp only [cumLogs, List.nil_append]
      rfl
    · rw [if_neg hT] at hsecs
      cases hsecs
  · intro hsecs hhsecs
    rw [hHF] at hhsecs
    by_cases hH : ctx.hasHtml
    · rw [if_pos hH] at hhsecs
      have hs := Option.some.inj hhsecs
      subst hs
      refine ⟨by rw [hB, expHtmlFull_length], ?_⟩
      intro i hi hb
      have hr : i < ctx.brefs.length := by rw [← hB]; exact hb
      rw [expHtmlFull_get ctx ctx.brefs [] i hi hr, hB, hE]
      simp only [cumLogs, List.nil_append, List.map_map]
      have hcomp : (fun hr : HtmlRow => hr.entry) ∘
          fmtHtmlRowFull ctx.remote ctx.gitiles ctx.name = id := by
        funext e
        simp [Function.comp_def, fmtHtmlRowFull_entry]
      rw [hcomp, List.map_id]
      rfl
    · rw [if_neg hH] at hhsecs
      cases hhsecs
  · intro a b rest hargs secs hsecs
    subst hargs
    obtain ⟨hn0, hsecb, bref, hsa, hbrefs⟩ := resolve_ranges_two project a b rest hres
    rw [hTF] at hsecs
    by_cases hT : ctx.hasText
    · rw [if_pos hT] at hsecs
      have hs := Option.some.inj hsecs
      subst hs
      subst hbrefs
      rw [hB, hE]
      simp [expTextFull, cumLogs, GenCtx.extractRef, hctx, mkCtx]
    · rw [if_neg hT] at hsecs
      cases hsecs

theorem C1_full_sections_cumulative_witness :
    rpt1.textFull = some
      [⟨"H", [2, 4, 4, 2], [cxE1]⟩, ⟨"H", [2, 4, 4, 2], [cxE1, cxE2]⟩] ∧
    ∀ secs, rpt1.textFull = some secs → secs.length = rpt1.brefs.length := by
  have h := C1_full_sections_cumulative patternMatch ["HEAD"] cxProject ""
    "out" (some "text") [] none true rpt1 (by decide)
  exact ⟨by decide, fun secs hs => (h.1 secs hs).1⟩

/-! ### Membership lemmas over the closed forms -/

theorem expTextFull_mem_column (ctx : GenCtx) :
    ∀ (refs : List String) (base : List LogEntry) (sec : TextSection),
      sec ∈ expTextFull ctx base refs → sec.column = colwidths sec.rows := by
  intro refs
  induction refs with
  | nil => intro base sec hs; cases hs
  | cons r rest ih =>
    intro base sec hs
    simp only [expTextFull] at hs
    rcases List.mem_cons.mp hs with h1 | h2
    · subst h1; rfl
    · exact ih _ sec h2

theorem expTextFull_mem_label (ctx : GenCtx) :
    ∀ (refs : List String) (base : List LogEntry) (sec : TextSection),
      sec ∈ expTextFull ctx base refs → ∃ r, sec.label = ctx.labelOf r := by
  intro refs
  induction refs with
  | nil => intro base sec hs; cases hs
  | cons r rest ih =>
    intro base sec hs
    simp only [expTextFull] at hs
    rcases List.mem_cons.mp hs with h1 | h2
    · exact ⟨r, by rw [h1]⟩
    · exact ih _ sec h2

theorem expTextFilt_mem_label (ctx : GenCtx) :
    ∀ (refs : List String) (base : List LogEntry) (sec : TextSection),
      sec ∈ expTextFilt ctx base refs → ∃ r, sec.label = ctx.labelOf r := by
  intro refs
  induction refs with
  | nil => intro base sec hs; cases hs
  | cons r rest ih =>
    intro base sec hs
    simp only [expTextFilt] at hs
    rcases List.mem_cons.mp hs with h1 | h2
    · exact ⟨r, by rw [h1]⟩
    · exact ih _ sec h2

theorem expHtmlFull_mem_label (ctx : GenCtx) :
    ∀ (refs : List String) (base : List LogEntry) (sec : HtmlSection),
      sec ∈ expHtmlFull ctx base refs → ∃ r, sec.label = ctx.labelOf r := by
  intro refs
  induction refs with
  | nil => intro base sec hs; cases hs
  | cons r rest ih =>
    intro base sec hs
    simp only [expHtmlFull] at hs
    rcases List.mem_cons.mp hs with h1 | h2
    · exact ⟨r, by rw [h1]⟩
    · exact ih _ sec h2

theorem expHtmlFilt_mem_label (ctx : GenCtx) :
    ∀ (refs : List String) (base : List LogEntry) (sec : HtmlSection),
      sec ∈ expHtmlFilt ctx base refs → ∃ r, sec.label = ctx.labelOf r := by
  intro refs
  induction refs with
  | nil => intro base sec hs; cases hs
  | cons r rest ih =>
    intro base sec hs
    simp only [expHtmlFilt] at hs
    rcases List.mem_cons.mp hs with h1 | h2
    · exact ⟨r, by rw [h1]⟩
    · exact ih _ sec h2

theorem expHtmlFull_mem_row (ctx : GenCtx) :
    ∀ (refs : List String) (base : List LogEntry) (sec : HtmlSection),
      sec ∈ expHtmlFull ctx base refs → ∀ row ∈ sec.rows,
        row = fmtHtmlRowFull ctx.remote ctx.gitiles ctx.name row.entry := by
  intro refs
  induction refs with
  | nil => intro base sec hs; cases hs
  | cons r rest ih =>
    intro base sec hs row hrow
    simp only [expHtmlFull] at hs
    rcases List.mem_cons.mp hs with h1 | h2
    · subst h1
      obtain ⟨e, _, he⟩ := List.mem_map.mp hrow
      rw [← he, fmtHtmlRowFull_entry]
    · exact ih _ sec h2 row hrow

theorem expHtmlFilt_mem_row (ctx : GenCtx) :
    ∀ (refs : List String) (base : List LogEntry) (sec : HtmlSection),
      sec ∈ expHtmlFilt ctx base refs → ∀ row ∈ sec.rows,
        row = fmtHtmlRowFilt ctx.remote ctx.gitiles ctx.name row.entry := by
  intro refs
  induction refs with
  | nil => intro base sec hs; cases hs
  | cons r rest ih =>
    intro base sec hs row hrow
    simp only [expHtmlFilt] at hs
    rcases List.mem_cons.mp hs with h1 | h2
    · subst h1
      obtain ⟨e, _, he⟩ := List.mem_map.mp hrow
      rw [← he, fmtHtmlRowFilt_entry]
    · exact ih _ sec h2 row hrow

/-! ### The event trace contains opens and closes only at its ends -/

theorem iterTrace_no_open_close (ctx : GenCtx) (logs : List LogEntry)
    (ref : String) (d : DocId) :
    Event.openDoc d ∉ iterTrace ctx logs ref ∧
    Event.closeDoc d ∉ iterTrace ctx logs ref := by
  by_cases hT : ctx.hasText <;> by_cases hP : ctx.hasPat <;>
    by_cases hH : ctx.hasHtml <;> simp [iterTrace, hT, hP, hH]

theorem expTrace_no_open_close (ctx : GenCtx) :
    ∀ (refs : List String) (base : List LogEntry) (d : DocId),
      Event.openDoc d ∉ expTrace ctx base refs ∧
      Event.closeDoc d ∉ expTrace ctx base refs := by
  intro refs
  induction refs with
  | nil => intro base d; simp [expTrace]
  | cons r rest ih =>
    intro base d
    have h1 := iterTrace_no_open_close ctx (base ++ ctx.extractRef r) r d
    have h2 := ih (base ++ ctx.extractRef r) d
    constructor <;> intro hmem <;> simp only [expTrace, List.mem_append] at hmem
    · rcases hmem with hm | hm
      · exact h1.1 hm
      · exact h2.1 hm
    · rcases hmem with hm | hm
      · exact h1.2 hm
      · exact h2.2 hm

/-! ### C5: filtered documents are subsequences of the full documents -/

/-- **C5** (confirmed).  In every successful run, the filtered and full
documents have the same sections, and section by section the filtered rows
are exactly the matching subset of the full rows in the same relative order —
a subsequence.  For the text documents this holds for the record rows
themselves; for the HTML documents it holds for the records underlying the
rendered rows. -/
theorem C5_filtered_subsequence
    (pm : Pattern → String → String → Bool) (args : List String)
    (project : GitProject) (name output : String) (format : Option String)
    (patterns : List String) (remote : Option String) (gitiles : Bool)
    (rpt : Report)
    (h : generate_report pm args project name output format patterns remote
      gitiles = .ok rpt) :
    (∀ secs fsecs, rpt.textFull = some secs → rpt.textFilt = some fsecs →
      fsecs.length = secs.length ∧
      ∀ i (hif : i < fsecs.length) (hi : i < secs.length),
        (fsecs.get ⟨i, hif⟩).rows.Sublist (secs.get ⟨i, hi⟩).rows) ∧
    (∀ hsecs hfsecs, rpt.htmlFull = some hsecs → rpt.htmlFilt = some hfsecs →
      hfsecs.length = hsecs.length ∧
      ∀ i (hif : i < hfsecs.length) (hi : i < hsecs.length),
        (((hfsecs.get ⟨i, hif⟩).rows).map (·.entry)).Sublist
          (((hsecs.get ⟨i, hi⟩).rows).map (·.entry))) := by
  obtain ⟨noticed, erefs, brefs, hres, hrpt⟩ := generate_report_ok h
  subst hrpt
  obtain ⟨hN, hE, hB, hL, hTF, hTf, hHF, hHf, hTr⟩ :=
    mkReport_fields
      (mkCtx pm project args erefs brefs name format patterns remote gitiles)
      noticed
  set ctx := mkCtx pm project args erefs brefs name format patterns remote
    gitiles with hctx
  constructor
  · intro secs fsecs hsecs hfsecs
    rw [hTF] at hsecs
    rw [hTf] at hfsecs
    by_cases hTP : (ctx.hasText && ctx.hasPat) = true
    · have hT : ctx.hasText = true := (Bool.and_eq_true .. ▸ hTP).1
      rw [if_pos hTP] at hfsecs
      rw [if_pos hT] at hsecs
      have h1 := Option.some.inj hsecs
      have h2 := Option.some.inj hfsecs
      subst h1
      subst h2
      refine ⟨by rw [expTextFilt_length, expTextFull_length], ?_⟩
      intro i hif hi
      have hr : i < ctx.brefs.length := by
        rw [← expTextFilt_length ctx ctx.brefs []]
        exact hif
      rw [expTextFilt_get ctx ctx.brefs [] i hif hr,
        expTextFull_get ctx ctx.brefs [] i hi hr]
      exact List.filter_sublist _
    · rw [if_neg hTP] at hfsecs
      cases hfsecs
  · intro hsecs hfsecs hhsecs hhfsecs
    rw [hHF] at hhsecs
    rw [hHf] at hhfsecs
    by_cases hHP : (ctx.hasHtml && ctx.hasPat) = true
    · have hH : ctx.hasHtml = true := (Bool.and_eq_true .. ▸ hHP).1
      rw [if_pos hHP] at hhfsecs
      rw [if_pos hH] at hhsecs
      have h1 := Option.some.inj hhsecs
      have h2 := Option.some.inj hhfsecs
      subst h1
      subst h2
      refine ⟨by rw [expHtmlFilt_length, expHtmlFull_length], ?_⟩
      intro i hif hi
      have hr : i < ctx.brefs.length := by
        rw [← expHtmlFilt_length ctx ctx.brefs []]
        exact hif
      rw [expHtmlFilt_get ctx ctx.brefs [] i hif hr,
        expHtmlFull_get ctx ctx.brefs [] i hi hr]
      have hcompF : (fun hr : HtmlRow => hr.entry) ∘
          fmtHtmlRowFilt ctx.remote ctx.gitiles ctx.name = id := by
        funext e
        simp [Function.comp_def, fmtHtmlRowFilt_entry]
      have hcompG : (fun hr : HtmlRow => hr.entry) ∘
          fmtHtmlRowFull ctx.remote ctx.gitiles ctx.name = id := by
        funext e
        simp [Function.comp_def, fmtHtmlRowFull_entry]
      simp only [List.map_map, hcompF, hcompG, List.map_id]
      exact List.filter_sublist _
    · rw [if_neg hHP] at hhfsecs
      cases hhfsecs

theorem C5_filtered_subsequence_witness :
    rptF.textFull = some [⟨"H", [2, 3, 33, 2], [cxFE1, cxFE2]⟩] ∧
    rptF.textFilt = some [⟨"H", [2, 3, 33, 2], [cxFE2]⟩] ∧
    ∀ secs fsecs, rptF.textFull = some secs → rptF.textFilt = some fsecs →
      fsecs.length = secs.length := by
  have h := C5_filtered_subsequence patternMatch ["HEAD"] cxFProject "myproj"
    "out" (some "all") ["alice@x.com"] (some "https://r.ex") true rptF
    (by decide)
  exact ⟨by decide, by decide, fun secs fsecs hs hf => (h.1 secs fsecs hs hf).1⟩

/-! ### C6: the zero-reference invocation -/

/-- **C6** counterexample.  In the zero-reference run `run0` the repository
has the single root ancestor `rootsha` and `HEAD` resolves to `headsha`.  The
notice is emitted, `HEAD` is resolved as the end reference and the root
ancestor becomes the begin reference, but the emitted section label is the
resolved end reference `"headsha"` — neither `"R..HEAD"` (here
`"rootsha..headsha"`, resolved, or the literal `"R..HEAD"`) nor `"HEAD"`. -/
theorem C6_counterexample :
    run0 = .ok rpt0 ∧
    rpt0.noticed = true ∧
    rpt0.erefs = "headsha" ∧
    rpt0.brefs = ["rootsha"] ∧
    rpt0.textFull =
      some [⟨"headsha", [2, 4, 4, 2], [⟨"c0", "a0@x", "m0@x", "s0"⟩]⟩] ∧
    ("headsha" ≠ "rootsha..headsha" ∧ "headsha" ≠ "R..HEAD" ∧
      "headsha" ≠ "HEAD") := by decide

/-- **C6 (amended)**.  For a zero-reference invocation the console notice is
emitted, `HEAD` is resolved (with the two-step fallback) as the end
reference, the split `rev_list --max-parents=0` output — all root ancestors —
becomes the begin references, and the label of every section of every
document is the resolved end reference itself: the `begin..end` label form is
used only when more than one command-line argument was supplied. -/
theorem C6_zero_args (pm : Pattern → String → String → Bool)
    (project : GitProject) (name output : String) (format : Option String)
    (patterns : List String) (remote : Option String) (gitiles : Bool)
    (rpt : Report)
    (h : generate_report pm [] project name output format patterns remote
      gitiles = .ok rpt) :
    rpt.noticed = true ∧
    secure_sha project project "HEAD" = .ok rpt.erefs ∧
    rpt.brefs = (if (project.rev_list "--max-parents=0" rpt.erefs).1 = 0 then
      pySplitLines (project.rev_list "--max-parents=0" rpt.erefs).2 else []) ∧
    (∀ secs, rpt.textFull = some secs → ∀ sec ∈ secs, sec.label = rpt.erefs) ∧
    (∀ secs, rpt.textFilt = some secs → ∀ sec ∈ secs, sec.label = rpt.erefs) ∧
    (∀ secs, rpt.htmlFull = some secs → ∀ sec ∈ secs, sec.label = rpt.erefs) ∧
    (∀ secs, rpt.htmlFilt = some secs → ∀ sec ∈ secs, sec.label = rpt.erefs) := by
  obtain ⟨noticed, erefs, brefs, hres, hrpt⟩ := generate_report_ok h
  subst hrpt
  obtain ⟨hN, hE, hB, hL, hTF, hTf, hHF, hHf, hTr⟩ :=
    mkReport_fields
      (mkCtx pm project [] erefs brefs name format patterns remote gitiles)
      noticed
  set ctx := mkCtx pm project [] erefs brefs name format patterns remote
    gitiles with hctx
  obtain ⟨hn, hsec, hbr⟩ := resolve_ranges_short project [] (by simp) hres
  have hlab : ∀ r, ctx.labelOf r = ctx.erefs := by
    intro r
    simp [GenCtx.labelOf, hctx, mkCtx]
  refine ⟨by rw [hN, hn]; rfl, by rw [hE]; exact hsec, by rw [hB, hE]; exact hbr,
    ?_, ?_, ?_, ?_⟩
  · intro secs hsecs sec hmem
    rw [hTF] at hsecs
    by_cases hT : ctx.hasText = true
    · rw [if_pos hT] at hsecs
      have hs := Option.some.inj hsecs
      subst hs
      obtain ⟨r, hr⟩ := expTextFull_mem_label ctx ctx.brefs [] sec hmem
      rw [hr, hlab r, hE]
    · rw [if_neg hT] at hsecs
      cases hsecs
  · intro secs hsecs sec hmem
    rw [hTf] at hsecs
    by_cases hT : (ctx.hasText && ctx.hasPat) = true
    · rw [if_pos hT] at hsecs
      have hs := Option.some.inj hsecs
      subst hs
      obtain ⟨r, hr⟩ := expTextFilt_mem_label ctx ctx.brefs [] sec hmem
      rw [hr, hlab r, hE]
    · rw [if_neg hT] at hsecs
      cases hsecs
  · intro secs hsecs sec hmem
    rw [hHF] at hsecs
    by_cases hH : ctx.hasHtml = true
    · rw [if_pos hH] at hsecs
      have hs := Option.some.inj hsecs
      subst hs
      obtain ⟨r, hr⟩ := expHtmlFull_mem_label ctx ctx.brefs [] sec hmem
      rw [hr, hlab r, hE]
    · rw [if_neg hH] at hsecs
      cases hsecs
  · intro secs hsecs sec hmem
    rw [hHf] at hsecs
    by_cases hH : (ctx.hasHtml && ctx.hasPat) = true
    · rw [if_pos hH] at hsecs
      have hs := Option.some.inj hsecs
      subst hs
      obtain ⟨r, hr⟩ := expHtmlFilt_mem_label ctx ctx.brefs [] sec hmem
      rw [hr, hlab r, hE]
    · rw [if_neg hH] at hsecs
      cases hsecs

theorem C6_zero_args_witness :
    rpt0.noticed = true ∧
    secure_sha cx0Project cx0Project "HEAD" = .ok rpt0.erefs := by
  have h := C6_zero_args patternMatch cx0Project "" "out" (some "text") []
    none true rpt0 (by decide)
  exact ⟨h.1, h.2.1⟩

/-! ### C7: extraction soft-fail -/

/-- **C7** (confirmed).  A range whose hash-list log query returns a nonzero
status contributes zero records; the aggregated `logs` are exactly the
concatenation of each range's extraction, so the remaining ranges are still
processed; and the run's success depends only on range resolution — a failing
log query never raises. -/
theorem C7_extraction_soft_fail (pm : Pattern → String → String → Bool)
    (args : List String) (project : GitProject) (name output : String)
    (format : Option String) (patterns : List String) (remote : Option String)
    (gitiles : Bool) :
    (∀ ref erefs, (project.log "--format=\"%H" (ref ++ ".." ++ erefs)).1 ≠ 0 →
      extract_range project ref erefs = []) ∧
    (∀ rpt, generate_report pm args project name output format patterns remote
        gitiles = .ok rpt →
      rpt.logs = rpt.brefs.flatMap (fun r => extract_range project r rpt.erefs)) ∧
    ((generate_report pm args project name output format patterns remote
        gitiles).isOk = (resolve_ranges project args).isOk) := by
  refine ⟨?_, ?_, ?_⟩
  · intro ref erefs hret
    unfold extract_range
    rw [if_neg hret]
  · intro rpt h
    obtain ⟨noticed, erefs, brefs, hres, hrpt⟩ := generate_report_ok h
    subst hrpt
    obtain ⟨hN, hE, hB, hL, _, _, _, _, _⟩ :=
      mkReport_fields
        (mkCtx pm project args erefs brefs name format patterns remote gitiles)
        noticed
    rw [hL, hB, hE]
    rfl
  · unfold generate_report
    cases hres : resolve_ranges project args with
    | error e => rfl
    | ok v =>
      obtain ⟨n, er, br⟩ := v
      rfl

theorem C7_extraction_soft_fail_witness :
    (cxProject.log "--format=\"%H" ("badref" ++ ".." ++ "H")).1 ≠ 0 ∧
    extract_range cxProject "badref" "H" = [] ∧
    rpt1.logs = rpt1.brefs.flatMap (fun r => extract_range cxProject r rpt1.erefs) := by
  have h := C7_extraction_soft_fail patternMatch ["HEAD"] cxProject "" "out"
    (some "text") [] none true
  exact ⟨by decide, h.1 "badref" "H" (by decide), h.2.1 rpt1 (by decide)⟩

/-! ### C8: text-backend column widths -/

/-- **C8** counterexample.  In `runF` the filtered text section is passed the
column widths computed over ALL accumulated records (committer width 33, from
the filtered-out `cxFE1`), while the maximum committer length over the rows
actually written to that section is 11 (`cxFE2` only), so the widths passed
do not equal the per-column maxima over that section's rows. -/
theorem C8_counterexample :
    runF = .ok rptF ∧
    rptF.textFilt = some [⟨"H", [2, 3, 33, 2], [cxFE2]⟩] ∧
    [maxLen ([cxFE2].map (·.sha1)), maxLen ([cxFE2].map (·.author)),
      maxLen ([cxFE2].map (·.committer)), maxLen ([cxFE2].map (·.subject))] =
      [2, 3, 11, 2] ∧
    ([2, 3, 33, 2] : List Nat) ≠ [2, 3, 11, 2] := by decide

/-- **C8 (amended)**.  In every successful run, each FULL text section's four
column widths equal the per-column maximum string length over the rows
written to that section (including empty cells; `0` for an empty section);
each FILTERED text section is passed the widths of the corresponding full
section — the maxima over the full, unfiltered row set — which may exceed the
maxima over its own filtered rows. -/
theorem C8_text_column_widths (pm : Pattern → String → String → Bool)
    (args : List String) (project : GitProject) (name output : String)
    (format : Option String) (patterns : List String) (remote : Option String)
    (gitiles : Bool) (rpt : Report)
    (h : generate_report pm args project name output format patterns remote
      gitiles = .ok rpt) :
    (∀ secs, rpt.textFull = some secs → ∀ sec ∈ secs,
      sec.column = [maxLen (sec.rows.map (·.sha1)),
        maxLen (sec.rows.map (·.author)), maxLen (sec.rows.map (·.committer)),
        maxLen (sec.rows.map (·.subject))]) ∧
    (∀ secs fsecs, rpt.textFull = some secs → rpt.textFilt = some fsecs →
      fsecs.length = secs.length ∧
      ∀ i (hif : i < fsecs.length) (hi : i < secs.length),
        (fsecs.get ⟨i, hif⟩).column = (secs.get ⟨i, hi⟩).column) := by
  obtain ⟨noticed, erefs, brefs, hres, hrpt⟩ := generate_report_ok h
  subst hrpt
  obtain ⟨hN, hE, hB, hL, hTF, hTf, hHF, hHf, hTr⟩ :=
    mkReport_fields
      (mkCtx pm project args erefs brefs name format patterns remote gitiles)
      noticed
  set ctx := mkCtx pm project args erefs brefs name format patterns remote
    gitiles with hctx
  constructor
  · intro secs hsecs sec hmem
    rw [hTF] at hsecs
    by_cases hT : ctx.hasText = true
    · rw [if_pos hT] at hsecs
      have hs := Option.some.inj hsecs
      subst hs
      rw [expTextFull_mem_column ctx ctx.brefs [] sec hmem]
      exact colwidths_eq_maxLen sec.rows
    · rw [if_neg hT] at hsecs
      cases hsecs
  · intro secs fsecs hsecs hfsecs
    rw [hTF] at hsecs
    rw [hTf] at hfsecs
    by_cases hTP : (ctx.hasText && ctx.hasPat) = true
    · have hT : ctx.hasText = true := (Bool.and_eq_true .. ▸ hTP).1
      rw [if_pos hTP] at hfsecs
      rw [if_pos hT] at hsecs
      have h1 := Option.some.inj hsecs
      have h2 := Option.some.inj hfsecs
      subst h1
      subst h2
      refine ⟨by rw [expTextFilt_length, expTextFull_length], ?_⟩
      intro i hif hi
      have hr : i < ctx.brefs.length := by
        rw [← expTextFilt_length ctx ctx.brefs []]
        exact hif
      rw [expTextFilt_get ctx ctx.brefs [] i hif hr,
        expTextFull_get ctx ctx.brefs [] i hi hr]
    · rw [if_neg hTP] at hfsecs
      cases hfsecs

theorem C8_text_column_widths_witness :
    (⟨"H", [2, 3, 33, 2], [cxFE1, cxFE2]⟩ : TextSection).column =
      [maxLen ([cxFE1, cxFE2].map (·.sha1)),
        maxLen ([cxFE1, cxFE2].map (·.author)),
        maxLen ([cxFE1, cxFE2].map (·.committer)),
        maxLen ([cxFE1, cxFE2].map (·.subject))] := by
  have h := C8_text_column_widths patternMatch ["HEAD"] cxFProject "myproj"
    "out" (some "all") ["alice@x.com"] (some "https://r.ex") true rptF
    (by decide)
  exact h.1 [⟨"H", [2, 3, 33, 2], [cxFE1, cxFE2]⟩] (by decide)
    ⟨"H", [2, 3, 33, 2], [cxFE1, cxFE2]⟩ (by decide)

/-! ### C2: sha1 hyperlinking -/

/-- **C2** counterexample.  In `runF` — remote location, project name and the
gitiles flag all set — the single row of the FILTERED HTML document links its
first sha1 span to `https://r.ex#q,c2` (format string `'%s#q,%s'`, lines
270-271), not to the claimed query URL `https://r.ex#/q/c2` used by the full
document. -/
theorem C2_counterexample :
    runF = .ok rptF ∧
    rptF.htmlFilt = some [⟨"H",
      [⟨cxFE2,
        [HCell.item2 (HCell.item "c2" (some "https://r.ex#q,c2") none)
          (HCell.item "" (some "https://r.ex/plugins/gitiles/myproj/+/c2^!")
            none)
          (some "pre"),
        HCell.item "b@x" (some "mailto:b@x") none,
        HCell.item "alice@x.com" (some "mailto:alice@x.com") none,
        HCell.str "s2"]⟩]⟩] ∧
    "https://r.ex#q,c2" ≠ "https://r.ex#/q/c2" := by decide

/-- **C2 (amended)**.  In every successful run: in the FULL HTML document,
when remote, name and gitiles are all set each sha1 cell is two linked spans
— the first 20 characters to `<remote>#/q/<sha1>` and the rest to
`<remote>/plugins/gitiles/<name>/+/<sha1>^!`; with remote set but gitiles or
name unset the whole sha1 links to `<remote>#/q/<sha1>`; with no remote the
sha1 is unlinked.  The FILTERED HTML document renders the same shapes except
that its query URL is `<remote>#q,<sha1>` in both linked cases. -/
theorem C2_sha1_links (pm : Pattern → String → String → Bool)
    (args : List String) (project : GitProject) (name output : String)
    (format : Option String) (patterns : List String) (remote : Option String)
    (gitiles : Bool) (rpt : Report)
    (h : generate_report pm args project name output format patterns remote
      gitiles = .ok rpt) :
    (∀ secs, rpt.htmlFull = some secs → ∀ sec ∈ secs, ∀ row ∈ sec.rows,
      (truthyOpt remote = true → (gitiles && !(name == "")) = true →
        row.cells.head? = some (HCell.item2
          (HCell.item (pyTake row.entry.sha1 20)
            (some (remote.getD "" ++ "#/q/" ++ row.entry.sha1)) none)
          (HCell.item (pyDrop row.entry.sha1 20)
            (some (remote.getD "" ++ "/plugins/gitiles/" ++ name ++ "/+/" ++
              row.entry.sha1 ++ "^!")) none)
          (some "pre"))) ∧
      (truthyOpt remote = true → (gitiles && !(name == "")) = false →
        row.cells.head? = some (HCell.item row.entry.sha1
          (some (remote.getD "" ++ "#/q/" ++ row.entry.sha1)) (some "pre"))) ∧
      (truthyOpt remote = false →
        row.cells.head? = some (HCell.str row.entry.sha1))) ∧
    (∀ secs, rpt.htmlFilt = some secs → ∀ sec ∈ secs, ∀ row ∈ sec.rows,
      (truthyOpt remote = true → (gitiles && !(name == "")) = true →
        row.cells.head? = some (HCell.item2
          (HCell.item (pyTake row.entry.sha1 20)
            (some (remote.getD "" ++ "#q," ++ row.entry.sha1)) none)
          (HCell.item (pyDrop row.entry.sha1 20)
            (some (remote.getD "" ++ "/plugins/gitiles/" ++ name ++ "/+/" ++
              row.entry.sha1 ++ "^!")) none)
          (some "pre"))) ∧
      (truthyOpt remote = true → (gitiles && !(name == "")) = false →
        row.cells.head? = some (HCell.item row.entry.sha1
          (some (remote.getD "" ++ "#q," ++ row.entry.sha1)) (some "pre"))) ∧
      (truthyOpt remote = false →
        row.cells.head? = some (HCell.str row.entry.sha1))) := by
  obtain ⟨noticed, erefs, brefs, hres, hrpt⟩ := generate_report_ok h
  subst hrpt
  obtain ⟨hN, hE, hB, hL, hTF, hTf, hHF, hHf, hTr⟩ :=
    mkReport_fields
      (mkCtx pm project args erefs brefs name format patterns remote gitiles)
      noticed
  set ctx := mkCtx pm project args erefs brefs name format patterns remote
    gitiles with hctx
  constructor
  · intro secs hsecs sec hmem row hrow
    rw [hHF] at hsecs
    by_cases hH : ctx.hasHtml = true
    · rw [if_pos hH] at hsecs
      have hs := Option.some.inj hsecs
      subst hs
      have hrw := expHtmlFull_mem_row ctx ctx.brefs [] sec hmem row hrow
      refine ⟨?_, ?_, ?_⟩
      · intro hrem hg
        rw [hrw]
        conv_lhs => rw [fmtHtmlRowFull]
        simp only [hctx, mkCtx]
        simp [hrem, hg, fmtHtmlRowFull_entry]
      · intro hrem hg
        rw [hrw]
        conv_lhs => rw [fmtHtmlRowFull]
        simp only [hctx, mkCtx]
        simp [hrem, hg, fmtHtmlRowFull_entry]
      · intro hrem
        rw [hrw]
        conv_lhs => rw [fmtHtmlRowFull]
        simp only [hctx, mkCtx]
        simp [hrem, fmtHtmlRowFull_entry]
    · rw [if_neg hH] at hsecs
      cases hsecs
  · intro secs hsecs sec hmem row hrow
    rw [hHf] at hsecs
    by_cases hH : (ctx.hasHtml && ctx.hasPat) = true
    · rw [if_pos hH] at hsecs
      have hs := Option.some.inj hsecs
      subst hs
      have hrw := expHtmlFilt_mem_row ctx ctx.brefs [] sec hmem row hrow
      refine ⟨?_, ?_, ?_⟩
      · intro hrem hg
        rw [hrw]
        conv_lhs => rw [fmtHtmlRowFilt]
        simp only [hctx, mkCtx]
        simp [hrem, hg, fmtHtmlRowFilt_entry]
      · intro hrem hg
        rw [hrw]
        conv_lhs => rw [fmtHtmlRowFilt]
        simp only [hctx, mkCtx]
        simp [hrem, hg, fmtHtmlRowFilt_entry]
      · intro hrem
        rw [hrw]
        conv_lhs => rw [fmtHtmlRowFilt]
        simp only [hctx, mkCtx]
        simp [hrem, fmtHtmlRowFilt_entry]
    · rw [if_neg hH] at hsecs
      cases hsecs

theorem C2_sha1_links_witness :
    rowHF1.cells.head? = some (HCell.item2
      (HCell.item (pyTake rowHF1.entry.sha1 20)
        (some ((some "https://r.ex" : Option String).getD "" ++ "#/q/" ++
          rowHF1.entry.sha1)) none)
      (HCell.item (pyDrop rowHF1.entry.sha1 20)
        (some ((some "https://r.ex" : Option String).getD "" ++
          "/plugins/gitiles/" ++ "myproj" ++ "/+/" ++ rowHF1.entry.sha1 ++
          "^!")) none)
      (some "pre")) := by
  have h := C2_sha1_links patternMatch ["HEAD"] cxFProject "myproj" "out"
    (some "all") ["alice@x.com"] (some "https://r.ex") true rptF (by decide)
  exact (h.1 [⟨"H", [rowHF1, rowHF2]⟩] (by decide) ⟨"H", [rowHF1, rowHF2]⟩
    (by decide) rowHF1 (by decide)).1 (by decide) (by decide)

/-! ### C10: document closing -/

theorem openList_mem_textFilt (hT hP hH : Bool) :
    Event.openDoc .textFilt ∈ openList hT hP hH ↔ (hT && hP) = true := by
  cases hT <;> cases hP <;> cases hH <;> decide

theorem openList_mem_htmlFilt (hT hP hH : Bool) :
    Event.openDoc .htmlFilt ∈ openList hT hP hH ↔ (hH && hP) = true := by
  cases hT <;> cases hP <;> cases hH <;> decide

theorem openDoc_not_mem_closeList (d : DocId) (hT hP hH : Bool) :
    Event.openDoc d ∉ closeList hT hP hH := by
  cases hT <;> cases hP <;> cases hH <;> cases d <;> decide

theorem closeList_sublist_textFilt (hT hP hH : Bool) (h : (hT && hP) = true) :
    [Event.closeDoc .textFilt, Event.closeDoc .textFull].Sublist
      (closeList hT hP hH) := by
  cases hT <;> cases hP <;> cases hH <;>
    first | decide | exact absurd h (by decide)

theorem closeList_sublist_htmlFilt (hT hP hH : Bool) (h : (hH && hP) = true) :
    [Event.closeDoc .htmlFilt, Event.closeDoc .htmlFull].Sublist
      (closeList hT hP hH) := by
  cases hT <;> cases hP <;> cases hH <;>
    first | decide | exact absurd h (by decide)

/-- **C10** counterexample.  The close calls (lines 285-292) are not guarded
by any `try`/`finally`: an exception raised mid-loop terminates the run with
a proper prefix of the effect trace.  In `run1`, the exit path that raises
after the third document-level effect (while the first section is being
rendered) has `report.txt` opened but not closed; only the complete trace
contains the close. -/
theorem C10_counterexample :
    run1 = .ok rpt1 ∧
    Event.openDoc .textFull ∈ rpt1.trace.take 3 ∧
    Event.closeDoc .textFull ∉ rpt1.trace.take 3 ∧
    rpt1.trace.take 3 ≠ rpt1.trace ∧
    Event.closeDoc .textFull ∈ rpt1.trace := by decide

/-- **C10 (amended)**.  On NORMAL completion every opened document handle is
closed (and only opened documents are closed): open and close events for each
document co-occur in the trace, and each filtered document is closed before
its corresponding full document.  The closes, however, are emitted only after
the whole rendering loop, so an exit path that fails after opening leaves the
handles unclosed (see the counterexample). -/
theorem C10_close_on_normal_completion (pm : Pattern → String → String → Bool)
    (args : List String) (project : GitProject) (name output : String)
    (format : Option String) (patterns : List String) (remote : Option String)
    (gitiles : Bool) (rpt : Report)
    (h : generate_report pm args project name output format patterns remote
      gitiles = .ok rpt) :
    (∀ d, Event.openDoc d ∈ rpt.trace ↔ Event.closeDoc d ∈ rpt.trace) ∧
    (Event.openDoc .textFilt ∈ rpt.trace →
      [Event.closeDoc .textFilt, Event.closeDoc .textFull].Sublist rpt.trace) ∧
    (Event.openDoc .htmlFilt ∈ rpt.trace →
      [Event.closeDoc .htmlFilt, Event.closeDoc .htmlFull].Sublist rpt.trace) := by
  obtain ⟨noticed, erefs, brefs, hres, hrpt⟩ := generate_report_ok h
  subst hrpt
  obtain ⟨hN, hE, hB, hL, hTF, hTf, hHF, hHf, hTr⟩ :=
    mkReport_fields
      (mkCtx pm project args erefs brefs name format patterns remote gitiles)
      noticed
  set ctx := mkCtx pm project args erefs brefs name format patterns remote
    gitiles with hctx
  rw [hTr]
  refine ⟨?_, ?_, ?_⟩
  · intro d
    have h1 := (expTrace_no_open_close ctx ctx.brefs [] d).1
    have h2 := (expTrace_no_open_close ctx ctx.brefs [] d).2
    cases d <;> by_cases hT : ctx.hasText <;> by_cases hP : ctx.hasPat <;>
      by_cases hH : ctx.hasHtml <;>
        simp [openList, closeList, hT, hP, hH, List.mem_append, h1, h2]
  · intro hopen
    have h1 := (expTrace_no_open_close ctx ctx.brefs [] DocId.textFilt).1
    have h2 := openDoc_not_mem_closeList DocId.textFilt ctx.hasText ctx.hasPat
      ctx.hasHtml
    have hTP : (ctx.hasText && ctx.hasPat) = true := by
      rcases List.mem_append.mp hopen with hm | hm
      · rcases List.mem_append.mp hm with hm2 | hm2
        · exact (openList_mem_textFilt _ _ _).mp hm2
        · exact absurd hm2 h1
      · exact absurd hm h2
    exact (closeList_sublist_textFilt _ _ _ hTP).trans
      (List.sublist_append_right _ _)
  · intro hopen
    have h1 := (expTrace_no_open_close ctx ctx.brefs [] DocId.htmlFilt).1
    have h2 := openDoc_not_mem_closeList DocId.htmlFilt ctx.hasText ctx.hasPat
      ctx.hasHtml
    have hHP : (ctx.hasHtml && ctx.hasPat) = true := by
      rcases List.mem_append.mp hopen with hm | hm
      · rcases List.mem_append.mp hm with hm2 | hm2
        · exact (openList_mem_htmlFilt _ _ _).mp hm2
        · exact absurd hm2 h1
      · exact absurd hm h2
    exact (closeList_sublist_htmlFilt _ _ _ hHP).trans
      (List.sublist_append_right _ _)

theorem C10_close_on_normal_completion_witness :
    (Event.openDoc .textFull ∈ rptF.trace ↔
      Event.closeDoc .textFull ∈ rptF.trace) ∧
    [Event.closeDoc .textFilt, Event.closeDoc .textFull].Sublist rptF.trace ∧
    [Event.closeDoc .htmlFilt, Event.closeDoc .htmlFull].Sublist rptF.trace := by
  have h := C10_close_on_normal_completion patternMatch ["HEAD"] cxFProject
    "myproj" "out" (some "all") ["alice@x.com"] (some "https://r.ex") true
    rptF (by decide)
  exact ⟨h.1 .textFull, h.2.1 (by decide), h.2.2 (by decide)⟩

end GitDiff
